import Mathlib

/-!
Verification of the color-space conversion core of the repository:
sRGB gamma coding, linear-RGB/XYZ matrices, CIELAB and Oklab transforms,
chromaticity classification and gradient interpolation.  Each Python
function is embedded as a Lean function over the reals (floating-point
arithmetic idealized as real arithmetic); Python `int()` truncation is
modelled by `pyint`.
-/

set_option maxHeartbeats 2000000

noncomputable section

/-- Python `int()` applied to a float: truncation toward zero. -/
def pyint (x : ℝ) : ℤ := if 0 ≤ x then ⌊x⌋ else -⌊-x⌋

namespace oklab2

/-- Embeds `linear_from_srgb` (src/oklab2.py, inside `rgb_to_oklab`):
gamma decode of an 8-bit channel. -/
def linear_from_srgb (c : ℝ) : ℝ :=
  if c / 255 ≤ 0.04045 then (c / 255) / 12.92
  else ((c / 255 + 0.055) / 1.055) ^ (2.4 : ℝ)

/-- Embeds `prime_from_linear` (src/oklab2.py, inside `rgb_to_oklab`):
the intended cube-root step, with a CIELAB-style linear segment below
the sRGB gamma threshold. -/
def prime_from_linear (x : ℝ) : ℝ :=
  if x > 0.0031308 then x ^ ((1 : ℝ) / 3) else x * 7.787 + 16 / 116

/-- Embeds `rgb_to_oklab` (src/oklab2.py). -/
def rgb_to_oklab (r g b : ℝ) : ℝ × ℝ × ℝ :=
  let r_linear := linear_from_srgb r
  let g_linear := linear_from_srgb g
  let b_linear := linear_from_srgb b
  let l := 0.4121656120 * r_linear + 0.5363325264 * g_linear + 0.0515018616 * b_linear
  let m := 0.2118591036 * r_linear + 0.6807189584 * g_linear + 0.1074219380 * b_linear
  let s := 0.0883094610 * r_linear + 0.2818474174 * g_linear + 0.6298431216 * b_linear
  let l_prime := prime_from_linear l
  let m_prime := prime_from_linear m
  let s_prime := prime_from_linear s
  (0.2104542553 * l_prime + 0.7936177850 * m_prime - 0.0040720468 * s_prime,
   1.9779984950 * l_prime - 2.4285922055 * m_prime + 0.4505937105 * s_prime,
   0.0259040371 * l_prime + 0.7827717662 * m_prime - 0.8086757983 * s_prime)

/-- Embeds `linear_from_prime` (src/oklab2.py, inside `oklab_to_rgb`):
cube for positive inputs, 0 otherwise. -/
def linear_from_prime (x : ℝ) : ℝ := if x > 0 then x ^ 3 else 0

/-- Embeds `srgb_from_linear` (src/oklab2.py, inside `oklab_to_rgb`):
clamp to [0,1], then gamma encode. -/
def srgb_from_linear (c : ℝ) : ℝ :=
  let c' := max 0 (min 1 c)
  if c' > 0.0031308 then 1.055 * c' ^ ((1 : ℝ) / 2.4) - 0.055 else c' * 12.92

/-- Embeds `oklab_to_rgb` (src/oklab2.py). -/
def oklab_to_rgb (L a b : ℝ) : ℤ × ℤ × ℤ :=
  let l_prime := L + 0.3963377774 * a + 0.2158037573 * b
  let m_prime := L - 0.1055613423 * a - 0.0638541728 * b
  let s_prime := L - 0.0894841775 * a - 1.2914855480 * b
  let l := linear_from_prime l_prime
  let m := linear_from_prime m_prime
  let s := linear_from_prime s_prime
  let r_linear := 4.0767416621 * l - 3.3077115913 * m + 0.2309699292 * s
  let g_linear := -1.2684380046 * l + 2.6097574011 * m - 0.3413193965 * s
  let b_linear := -0.0041960863 * l - 0.7034186147 * m + 1.7076147010 * s
  (pyint (srgb_from_linear r_linear * 255),
   pyint (srgb_from_linear g_linear * 255),
   pyint (srgb_from_linear b_linear * 255))

lemma linear_from_srgb_zero : linear_from_srgb 0 = 0 := by
  unfold linear_from_srgb
  rw [if_pos (by norm_num)]
  norm_num

lemma prime_from_linear_zero : prime_from_linear 0 = 16 / 116 := by
  unfold prime_from_linear
  rw [if_neg (by norm_num)]
  ring

lemma linear_from_prime_of_pos {x : ℝ} (h : 0 < x) : linear_from_prime x = x ^ 3 :=
  if_pos h

lemma srgb_from_linear_of_small {c : ℝ} (h0 : 0 ≤ c) (h1 : c ≤ 0.0031308) :
    srgb_from_linear c = c * 12.92 := by
  unfold srgb_from_linear
  rw [min_eq_right (h1.trans (by norm_num)), max_eq_right h0, if_neg (not_lt.mpr h1)]

/-- Forward conversion of pure black under the hybrid companding of
`rgb_to_oklab`: the linear segment 7.787*t + 16/116 sends 0 to 16/116,
which the coefficient rows turn into these exact rationals. -/
lemma rgb_to_oklab_black :
    rgb_to_oklab 0 0 0 = (1999999987 / 14500000000, 0, 1 / 1450000000) := by
  unfold rgb_to_oklab
  simp only [linear_from_srgb_zero]
  norm_num [prime_from_linear_zero]

end oklab2

namespace oklab

/-- Embeds `linear_from_prime` (src/oklab.py, lines 44-45, inside
`oklab_to_rgb`): cube for positive inputs, the constant 0 otherwise. -/
def linear_from_prime (x : ℝ) : ℝ := if x > 0 then x ^ 3 else 0

end oklab

namespace picoCIELAB

/-- Embeds `D65_X` (src/picoCIELAB.py). -/
def D65_X : ℝ := 95.047

/-- Embeds `D65_Y` (src/picoCIELAB.py). -/
def D65_Y : ℝ := 100.000

/-- Embeds `D65_Z` (src/picoCIELAB.py). -/
def D65_Z : ℝ := 108.883

/-- Embeds `rgb_to_xyz` (src/picoCIELAB.py): gamma decode with the
0.04045 threshold, the sRGB/D65 matrix, scaled by 100. -/
def rgb_to_xyz (r g b : ℝ) : ℝ × ℝ × ℝ :=
  let r_linear :=
    if r / 255 > 0.04045 then ((r / 255 + 0.055) / 1.055) ^ (2.4 : ℝ) else (r / 255) / 12.92
  let g_linear :=
    if g / 255 > 0.04045 then ((g / 255 + 0.055) / 1.055) ^ (2.4 : ℝ) else (g / 255) / 12.92
  let b_linear :=
    if b / 255 > 0.04045 then ((b / 255 + 0.055) / 1.055) ^ (2.4 : ℝ) else (b / 255) / 12.92
  ((r_linear * 0.4124 + g_linear * 0.3576 + b_linear * 0.1805) * 100,
   (r_linear * 0.2126 + g_linear * 0.7152 + b_linear * 0.0722) * 100,
   (r_linear * 0.0193 + g_linear * 0.1192 + b_linear * 0.9505) * 100)

/-- Embeds the lambda `f` of `xyz_to_lab` (src/picoCIELAB.py):
cube root above 0.008856, linear segment 7.787*t + 16/116 below. -/
def f (t : ℝ) : ℝ :=
  if t > 0.008856 then t ^ ((1 : ℝ) / 3) else 7.787 * t + 16 / 116

/-- Embeds `xyz_to_lab` (src/picoCIELAB.py). -/
def xyz_to_lab (x y z : ℝ) : ℝ × ℝ × ℝ :=
  let x' := x / D65_X
  let y' := y / D65_Y
  let z' := z / D65_Z
  (116 * f y' - 16, 500 * (f x' - f y'), 200 * (f y' - f z'))

/-- Embeds the lambda `f_inv` of `lab_to_xyz` (src/picoCIELAB.py):
cube when the cube exceeds 0.008856, matching linear inverse otherwise. -/
def f_inv (t : ℝ) : ℝ :=
  if t ^ 3 > 0.008856 then t ^ 3 else (t - 16 / 116) / 7.787

/-- Embeds `lab_to_xyz` (src/picoCIELAB.py). -/
def lab_to_xyz (l a b : ℝ) : ℝ × ℝ × ℝ :=
  let fy := (l + 16) / 116
  let fx := a / 500 + fy
  let fz := fy - b / 200
  (D65_X * f_inv fx, D65_Y * f_inv fy, D65_Z * f_inv fz)

/-- Embeds `xyz_to_rgb` (src/picoCIELAB.py): inverse matrix, gamma
encode, scale to 8 bits and clamp with `max(0, min(255, int(...)))`. -/
def xyz_to_rgb (x y z : ℝ) : ℤ × ℤ × ℤ :=
  let x' := x / 100
  let y' := y / 100
  let z' := z / 100
  let r_linear := x' * 3.2406 + y' * (-1.5372) + z' * (-0.4986)
  let g_linear := x' * (-0.9689) + y' * 1.8758 + z' * 0.0415
  let b_linear := x' * 0.0557 + y' * (-0.2040) + z' * 1.0570
  let r := if r_linear > 0.0031308 then 1.055 * r_linear ^ ((1 : ℝ) / 2.4) - 0.055 else r_linear * 12.92
  let g := if g_linear > 0.0031308 then 1.055 * g_linear ^ ((1 : ℝ) / 2.4) - 0.055 else g_linear * 12.92
  let b := if b_linear > 0.0031308 then 1.055 * b_linear ^ ((1 : ℝ) / 2.4) - 0.055 else b_linear * 12.92
  (max 0 (min 255 (pyint (r * 255))),
   max 0 (min 255 (pyint (g * 255))),
   max 0 (min 255 (pyint (b * 255))))

/-- Embeds `create_smooth_gradient` (src/picoCIELAB.py) as the sequence
of RGB8 colors the loop displays.  The step sizes divide by `n_steps`,
so Python raises ZeroDivisionError when `n_steps = 0`; the embedding
returns `none` in that case.  The `delay_ms` timing argument is elided. -/
def create_smooth_gradient (start_rgb end_rgb : ℝ × ℝ × ℝ) (n_steps : ℕ) :
    Option (List (ℤ × ℤ × ℤ)) :=
  if n_steps = 0 then none
  else
    let start_xyz := rgb_to_xyz start_rgb.1 start_rgb.2.1 start_rgb.2.2
    let start_lab := xyz_to_lab start_xyz.1 start_xyz.2.1 start_xyz.2.2
    let end_xyz := rgb_to_xyz end_rgb.1 end_rgb.2.1 end_rgb.2.2
    let end_lab := xyz_to_lab end_xyz.1 end_xyz.2.1 end_xyz.2.2
    let step_l := (end_lab.1 - start_lab.1) / n_steps
    let step_a := (end_lab.2.1 - start_lab.2.1) / n_steps
    let step_b := (end_lab.2.2 - start_lab.2.2) / n_steps
    some <| (List.range (n_steps + 1)).map fun i =>
      let current_l := start_lab.1 + step_l * i
      let current_a := start_lab.2.1 + step_a * i
      let current_b := start_lab.2.2 + step_b * i
      let current_xyz := lab_to_xyz current_l current_a current_b
      xyz_to_rgb current_xyz.1 current_xyz.2.1 current_xyz.2.2

/-- Key compatibility of the two piecewise branches: `f_inv` undoes `f`
on every nonnegative argument.  On the cube-root branch the cube of the
result is the original t, still above 0.008856; on the linear branch the
companded value is at most 7.787*0.008856 + 16/116, whose cube is
(barely) below 0.008856, so the matching linear inverse is selected. -/
lemma f_inv_f {t : ℝ} (ht : 0 ≤ t) : f_inv (f t) = t := by
  unfold f f_inv
  by_cases h : t > 0.008856
  · rw [if_pos h]
    have hc : (t ^ ((1 : ℝ) / 3)) ^ 3 = t := by
      rw [← Real.rpow_natCast (t ^ ((1 : ℝ) / 3)) 3, ← Real.rpow_mul ht]
      norm_num
    rw [if_pos (by rw [hc]; exact h), hc]
  · rw [if_neg h]
    push_neg at h
    have hub : 7.787 * t + 16 / 116 ≤ 7.787 * 0.008856 + 16 / 116 := by nlinarith
    have hlb : (0 : ℝ) ≤ 7.787 * t + 16 / 116 := by nlinarith
    have hcube : (7.787 * t + 16 / 116) ^ 3 ≤ 0.008856 := by
      calc (7.787 * t + 16 / 116) ^ 3 ≤ (7.787 * 0.008856 + 16 / 116) ^ 3 :=
            pow_le_pow_left₀ hlb hub 3
        _ ≤ 0.008856 := by norm_num
    rw [if_neg (not_lt.mpr hcube)]
    ring

end picoCIELAB

/-- C7: `lab_to_xyz` is the exact algebraic inverse of `xyz_to_lab` on
nonnegative XYZ triples; the forward threshold (t > 0.008856 on the
normalized component) and the inverse threshold (t^3 > 0.008856 on the
companded value) select matching branches. -/
theorem C7_lab_xyz_roundtrip (x y z : ℝ) (hx : 0 ≤ x) (hy : 0 ≤ y) (hz : 0 ≤ z) :
    picoCIELAB.lab_to_xyz (picoCIELAB.xyz_to_lab x y z).1
      (picoCIELAB.xyz_to_lab x y z).2.1 (picoCIELAB.xyz_to_lab x y z).2.2 = (x, y, z) := by
  simp only [picoCIELAB.xyz_to_lab, picoCIELAB.lab_to_xyz]
  rw [show (116 * picoCIELAB.f (y / picoCIELAB.D65_Y) - 16 + 16) / 116 =
      picoCIELAB.f (y / picoCIELAB.D65_Y) by ring]
  rw [show 500 * (picoCIELAB.f (x / picoCIELAB.D65_X) - picoCIELAB.f (y / picoCIELAB.D65_Y)) / 500 +
      picoCIELAB.f (y / picoCIELAB.D65_Y) = picoCIELAB.f (x / picoCIELAB.D65_X) by ring]
  rw [show picoCIELAB.f (y / picoCIELAB.D65_Y) -
      200 * (picoCIELAB.f (y / picoCIELAB.D65_Y) - picoCIELAB.f (z / picoCIELAB.D65_Z)) / 200 =
      picoCIELAB.f (z / picoCIELAB.D65_Z) by ring]
  rw [picoCIELAB.f_inv_f (div_nonneg hx (by norm_num [picoCIELAB.D65_X])),
    picoCIELAB.f_inv_f (div_nonneg hy (by norm_num [picoCIELAB.D65_Y])),
    picoCIELAB.f_inv_f (div_nonneg hz (by norm_num [picoCIELAB.D65_Z]))]
  rw [Prod.mk.injEq, Prod.mk.injEq]
  refine ⟨?_, ?_, ?_⟩ <;> · rw [mul_div_cancel₀]; norm_num [picoCIELAB.D65_X,
    picoCIELAB.D65_Y, picoCIELAB.D65_Z]

/-- Witness for C7_lab_xyz_roundtrip at the origin. -/
theorem C7_lab_xyz_roundtrip_witness :
    (0 : ℝ) ≤ 0 ∧
      picoCIELAB.lab_to_xyz (picoCIELAB.xyz_to_lab 0 0 0).1
        (picoCIELAB.xyz_to_lab 0 0 0).2.1 (picoCIELAB.xyz_to_lab 0 0 0).2.2 = (0, 0, 0) :=
  ⟨le_refl 0, C7_lab_xyz_roundtrip 0 0 0 (le_refl 0) (le_refl 0) (le_refl 0)⟩

/-- C4 counterexample: with a step count of zero the gradient loop of
picoCIELAB.py divides by `n_steps` and fails; it does not produce the
claimed single-element sequence. -/
theorem C4_steps_zero_cex :
    picoCIELAB.create_smooth_gradient (255, 0, 0) (0, 0, 255) 0 = none := by
  simp [picoCIELAB.create_smooth_gradient]

/-- C4 (amended): for every pair of anchors, `create_smooth_gradient`
with `n_steps = 0` raises ZeroDivisionError (modelled as `none`) instead
of returning a sequence. -/
theorem C4_steps_zero (start_rgb end_rgb : ℝ × ℝ × ℝ) :
    picoCIELAB.create_smooth_gradient start_rgb end_rgb 0 = none := by
  simp [picoCIELAB.create_smooth_gradient]

/-- Interval bound for a real power with exponent 2.4 = 12/5: a strict
lower bound follows from comparing the rational 12th and 5th powers. -/
lemma lt_rpow_24_of_pow {t a : ℝ} (ht : 0 ≤ t) (ha : 0 ≤ a) (h : a ^ 5 < t ^ 12) :
    a < t ^ (2.4 : ℝ) := by
  have h1 : (t ^ (12 : ℕ)) ^ ((1 : ℝ) / 5) = t ^ (2.4 : ℝ) := by
    rw [← Real.rpow_natCast t 12, ← Real.rpow_mul ht]
    norm_num
  have h2 : (a ^ (5 : ℕ)) ^ ((1 : ℝ) / 5) = a := by
    rw [← Real.rpow_natCast a 5, ← Real.rpow_mul ha]
    norm_num
  have h3 := Real.rpow_lt_rpow (pow_nonneg ha 5) h (by norm_num : (0 : ℝ) < 1 / 5)
  rw [h1, h2] at h3
  exact h3

namespace picoAmber1

/-- Embeds `srgb_to_linear` (src/picoAmber1.py). -/
def srgb_to_linear (c : ℝ) : ℝ :=
  if c / 255 > 0.04045 then ((c / 255 + 0.055) / 1.055) ^ (2.4 : ℝ) else (c / 255) / 12.92

/-- Embeds the local `x` of `rgb_to_xy` (src/picoAmber1.py). -/
def x_of (r g b : ℝ) : ℝ :=
  0.4124564 * srgb_to_linear r + 0.3575761 * srgb_to_linear g + 0.1804375 * srgb_to_linear b

/-- Embeds the local `y` of `rgb_to_xy` (src/picoAmber1.py). -/
def y_of (r g b : ℝ) : ℝ :=
  0.2126729 * srgb_to_linear r + 0.7151522 * srgb_to_linear g + 0.0721750 * srgb_to_linear b

/-- Embeds the local `z` of `rgb_to_xy` (src/picoAmber1.py). -/
def z_of (r g b : ℝ) : ℝ :=
  0.0193339 * srgb_to_linear r + 0.1191920 * srgb_to_linear g + 0.9503041 * srgb_to_linear b

/-- Embeds the local `sum_xyz` of `rgb_to_xy` (src/picoAmber1.py). -/
def sum_xyz (r g b : ℝ) : ℝ := x_of r g b + y_of r g b + z_of r g b

/-- Embeds `rgb_to_xy` (src/picoAmber1.py): chromaticity with the
explicit zero-sum branch returning (0, 0). -/
def rgb_to_xy (r g b : ℝ) : ℝ × ℝ :=
  if sum_xyz r g b = 0 then (0, 0)
  else (x_of r g b / sum_xyz r g b, y_of r g b / sum_xyz r g b)

/-- Embeds `is_in_amber_zone` (src/picoAmber1.py): the four region
inequalities with TOLERANCE = 0.005, conjoined in source order. -/
def is_in_amber_zone (r g b : ℝ) : Prop :=
  let p := rgb_to_xy r g b
  let x := p.1
  let y := p.2
  let TOLERANCE : ℝ := 0.005
  y ≤ 0.390 + TOLERANCE ∧
    y ≥ x - 0.120 - TOLERANCE ∧
      y ≤ 0.790 - 0.670 * x + TOLERANCE ∧ (x > 0.5 - TOLERANCE ∧ x < 0.65 + TOLERANCE)

/-- Embeds `hsv_to_rgb` (src/picoAmber1.py).  On `s = 0` the source
returns the raw floats `(v, v, v)` without scaling; the other sectors
return 8-bit values `int(v*255)` (as Python numbers, embedded as reals).
The source's run of plain `if` statements over `i %= 6` is an exhaustive
6-way selection equivalent to the nested conditional used here. -/
def hsv_to_rgb (h s v : ℝ) : ℝ × ℝ × ℝ :=
  if s = 0 then (v, v, v)
  else
    let i : ℤ := ⌊h * 6⌋
    let f : ℝ := h * 6 - i
    let p := v * (1 - s)
    let q := v * (1 - s * f)
    let t := v * (1 - s * (1 - f))
    let i' := i % 6
    let rgb : ℝ × ℝ × ℝ :=
      if i' = 0 then (v, t, p)
      else if i' = 1 then (q, v, p)
      else if i' = 2 then (p, v, t)
      else if i' = 3 then (p, q, v)
      else if i' = 4 then (t, p, v)
      else (v, p, q)
    ((pyint (rgb.1 * 255) : ℝ), (pyint (rgb.2.1 * 255) : ℝ), (pyint (rgb.2.2 * 255) : ℝ))

lemma srgb_to_linear_zero : srgb_to_linear 0 = 0 := by
  unfold srgb_to_linear
  rw [if_neg (by norm_num)]
  norm_num

lemma srgb_to_linear_255 : srgb_to_linear 255 = 1 := by
  unfold srgb_to_linear
  rw [if_pos (by norm_num), show ((255 : ℝ) / 255 + 0.055) / 1.055 = 1 by norm_num,
    Real.one_rpow]

lemma srgb_to_linear_191_lb : 0.2 < srgb_to_linear 191 := by
  unfold srgb_to_linear
  rw [if_pos (by norm_num), show ((191 : ℝ) / 255 + 0.055) / 1.055 = 8201 / 10761 by norm_num]
  exact lt_rpow_24_of_pow (by norm_num) (by norm_num) (by norm_num)

lemma srgb_to_linear_nonneg {c : ℝ} (hc : 0 ≤ c) : 0 ≤ srgb_to_linear c := by
  unfold srgb_to_linear
  split_ifs with h
  · exact Real.rpow_nonneg (by positivity) _
  · positivity

/-- The y-chromaticity that `rgb_to_xy` computes for the known amber
color (255,191,0) exceeds the `is_reddish_enough` bound 0.390 + 0.005. -/
lemma amber_y_chromaticity_big : 0.390 + 0.005 < (rgb_to_xy 255 191 0).2 := by
  have hg := srgb_to_linear_191_lb
  have hg0 : (0 : ℝ) ≤ srgb_to_linear 191 := by linarith
  have hsum : sum_xyz 255 191 0 =
      0.6444632 + 1.1919203 * srgb_to_linear 191 := by
    unfold sum_xyz x_of y_of z_of
    rw [srgb_to_linear_zero, srgb_to_linear_255]
    ring
  have hy : y_of 255 191 0 = 0.2126729 + 0.7151522 * srgb_to_linear 191 := by
    unfold y_of
    rw [srgb_to_linear_zero, srgb_to_linear_255]
    ring
  have hspos : 0 < sum_xyz 255 191 0 := by rw [hsum]; nlinarith
  unfold rgb_to_xy
  rw [if_neg (ne_of_gt hspos)]
  show 0.390 + 0.005 < y_of 255 191 0 / sum_xyz 255 191 0
  rw [lt_div_iff₀ hspos, hsum, hy]
  nlinarith

end picoAmber1

namespace picoColorModels

/-- Embeds `hsv_to_rgb` (src/picoColorModels.py): the `s = 0` branch
returns the scaled gray `(int(v*255),)*3`; otherwise the 6-way sector
selection on `int(math.floor(h*6)) % 6`. -/
def hsv_to_rgb (h s v : ℝ) : ℤ × ℤ × ℤ :=
  if s = 0 then (pyint (v * 255), pyint (v * 255), pyint (v * 255))
  else
    let i : ℤ := ⌊h * 6⌋
    let f : ℝ := h * 6 - i
    let p := v * (1 - s)
    let q := v * (1 - f * s)
    let t := v * (1 - (1 - f) * s)
    let i' := i % 6
    let rgb : ℝ × ℝ × ℝ :=
      if i' = 0 then (v, t, p)
      else if i' = 1 then (q, v, p)
      else if i' = 2 then (p, v, t)
      else if i' = 3 then (p, q, v)
      else if i' = 4 then (t, p, v)
      else (v, p, q)
    (pyint (rgb.1 * 255), pyint (rgb.2.1 * 255), pyint (rgb.2.2 * 255))

end picoColorModels

namespace oklab_landscapes

/-- Embeds `xyz_to_rgb` (src/oklab_landscapes.py): inverse sRGB matrix
and gamma encode, scaled by 255 and truncated, with no clamping. -/
def xyz_to_rgb (x y z : ℝ) : ℤ × ℤ × ℤ :=
  let r := 3.2406 * x - 1.5372 * y - 0.4986 * z
  let g := -0.9689 * x + 1.8758 * y + 0.0415 * z
  let b := 0.0557 * x - 0.2040 * y + 1.0570 * z
  let r' := if r > 0.0031308 then 1.055 * r ^ ((1 : ℝ) / 2.4) - 0.055 else 12.92 * r
  let g' := if g > 0.0031308 then 1.055 * g ^ ((1 : ℝ) / 2.4) - 0.055 else 12.92 * g
  let b' := if b > 0.0031308 then 1.055 * b ^ ((1 : ℝ) / 2.4) - 0.055 else 12.92 * b
  (pyint (r' * 255), pyint (g' * 255), pyint (b' * 255))

end oklab_landscapes

namespace oklch_spiral

/-- Embeds `oklch_to_oklab` (src/oklch_spiral.py): cylindrical to
cartesian, hue in degrees converted by `math.radians`. -/
def oklch_to_oklab (l c h : ℝ) : ℝ × ℝ × ℝ :=
  let h_rad := h * (Real.pi / 180)
  (l, c * Real.cos h_rad, c * Real.sin h_rad)

/-- Embeds `oklab_to_linear_srgb` (src/oklch_spiral.py). -/
def oklab_to_linear_srgb (l a b : ℝ) : ℝ × ℝ × ℝ :=
  let l' := (l + 0.3963377774 * a + 0.2158037573 * b) ^ 3
  let m' := (l - 0.1055613458 * a - 0.0638541728 * b) ^ 3
  let s' := (l - 0.0894841775 * a - 1.2914855480 * b) ^ 3
  (4.0767416621 * l' - 3.3077115913 * m' + 0.2309699292 * s',
   -1.2684380046 * l' + 2.6097574011 * m' - 0.3413193965 * s',
   -0.0041960863 * l' - 0.7034186147 * m' + 1.7076147010 * s')

/-- Embeds `linear_to_srgb_gamma` (src/oklch_spiral.py). -/
def linear_to_srgb_gamma (c : ℝ) : ℝ :=
  if c > 0.0031308 then 1.055 * c ^ ((1 : ℝ) / 2.4) - 0.055 else 12.92 * c

/-- Embeds `oklch_to_rgb` (src/oklch_spiral.py): each channel is clamped
with `int(max(0, min(255, gamma * 255)))`. -/
def oklch_to_rgb (l c h : ℝ) : ℤ × ℤ × ℤ :=
  let lab := oklch_to_oklab l c h
  let lin := oklab_to_linear_srgb lab.1 lab.2.1 lab.2.2
  (pyint (max 0 (min 255 (linear_to_srgb_gamma lin.1 * 255))),
   pyint (max 0 (min 255 (linear_to_srgb_gamma lin.2.1 * 255))),
   pyint (max 0 (min 255 (linear_to_srgb_gamma lin.2.2 * 255))))

end oklch_spiral

lemma pyint_nonneg_le {x : ℝ} (h0 : 0 ≤ x) (h1 : x ≤ 255) :
    0 ≤ pyint x ∧ pyint x ≤ 255 := by
  unfold pyint
  rw [if_pos h0]
  constructor
  · exact Int.floor_nonneg.mpr h0
  · have h := Int.floor_le_floor (α := ℝ) h1
    simpa using h

lemma clamp255_mem (w : ℝ) : 0 ≤ max 0 (min 255 w) ∧ max 0 (min 255 w) ≤ 255 :=
  ⟨le_max_left 0 _, max_le (by norm_num) (min_le_left _ _)⟩

/-- C2 counterexample: the oklab_landscapes.py transform does not clamp;
at XYZ input (0,1,0) the red linear value is -1.5372, the gamma branch
multiplies it by 12.92, and the red channel comes out as -5064. -/
theorem C2_landscapes_unclamped_cex : (oklab_landscapes.xyz_to_rgb 0 1 0).1 < 0 := by
  have h : (oklab_landscapes.xyz_to_rgb 0 1 0).1 =
      pyint (12.92 * (3.2406 * 0 - 1.5372 * 1 - 0.4986 * 0) * 255) := by
    simp only [oklab_landscapes.xyz_to_rgb]
    rw [if_neg (by norm_num)]
  rw [h]
  unfold pyint
  rw [if_neg (by norm_num)]
  rw [neg_lt_zero, Int.lt_iff_add_one_le]
  rw [show (0 : ℤ) + 1 = 1 from rfl, Int.le_floor]
  norm_num

/-- C2 (amended): the transforms that do clamp — `oklch_to_rgb` of
oklch_spiral.py and `xyz_to_rgb` of picoCIELAB.py — return every channel
in [0,255] for every real input. -/
theorem C2_rgb8_clamping :
    (∀ l c h : ℝ,
        0 ≤ (oklch_spiral.oklch_to_rgb l c h).1 ∧ (oklch_spiral.oklch_to_rgb l c h).1 ≤ 255 ∧
          0 ≤ (oklch_spiral.oklch_to_rgb l c h).2.1 ∧
            (oklch_spiral.oklch_to_rgb l c h).2.1 ≤ 255 ∧
              0 ≤ (oklch_spiral.oklch_to_rgb l c h).2.2 ∧
                (oklch_spiral.oklch_to_rgb l c h).2.2 ≤ 255) ∧
      ∀ x y z : ℝ,
        0 ≤ (picoCIELAB.xyz_to_rgb x y z).1 ∧ (picoCIELAB.xyz_to_rgb x y z).1 ≤ 255 ∧
          0 ≤ (picoCIELAB.xyz_to_rgb x y z).2.1 ∧ (picoCIELAB.xyz_to_rgb x y z).2.1 ≤ 255 ∧
            0 ≤ (picoCIELAB.xyz_to_rgb x y z).2.2 ∧ (picoCIELAB.xyz_to_rgb x y z).2.2 ≤ 255 := by
  constructor
  · intro l c h
    simp only [oklch_spiral.oklch_to_rgb]
    obtain ⟨ha1, ha2⟩ := pyint_nonneg_le (clamp255_mem _).1 (clamp255_mem _).2
    obtain ⟨hb1, hb2⟩ := pyint_nonneg_le (clamp255_mem _).1 (clamp255_mem _).2
    obtain ⟨hc1, hc2⟩ := pyint_nonneg_le (clamp255_mem _).1 (clamp255_mem _).2
    exact ⟨ha1, ha2, hb1, hb2, hc1, hc2⟩
  · intro x y z
    simp only [picoCIELAB.xyz_to_rgb]
    refine ⟨le_max_left 0 _, max_le (by norm_num) (min_le_left _ _),
      le_max_left 0 _, max_le (by norm_num) (min_le_left _ _),
      le_max_left 0 _, max_le (by norm_num) (min_le_left _ _)⟩

/-- Modelled from the spec: the repository has no gradient code that
interpolates in a hue-based space (every interpolator under src/ works
componentwise in cartesian RGB, Oklab or CIELAB coordinates), so the
shortest-arc hue interpolation of spec §4.7 is modelled here from the
spec's words.  `hue_wrap` reduces an angle into [0, 360). -/
def hue_wrap (h : ℝ) : ℝ := h - 360 * ⌊h / 360⌋

/-- Modelled from the spec: the signed hue difference from h1 to h2
along the shorter arc around the 0/360 wraparound, in (-180, 180]. -/
def hue_shortest_delta (h1 h2 : ℝ) : ℝ :=
  let d := hue_wrap (h2 - h1)
  if d > 180 then d - 360 else d

/-- Modelled from the spec: the steps+1 hue values produced by
interpolating from h1 to h2 along the shorter arc, wrapped into
[0, 360). -/
def hue_interp_seq (h1 h2 : ℝ) (steps : ℕ) : List ℝ :=
  (List.range (steps + 1)).map fun i : ℕ =>
    hue_wrap (h1 + hue_shortest_delta h1 h2 * ((i : ℝ) / (steps : ℝ)))

lemma hue_wrap_eq_self {h : ℝ} (h0 : 0 ≤ h) (h1 : h < 360) : hue_wrap h = h := by
  unfold hue_wrap
  rw [show ⌊h / 360⌋ = 0 from by
    rw [Int.floor_eq_iff]
    constructor
    · simpa using div_nonneg h0 (by norm_num)
    · rw [Int.cast_zero, zero_add, div_lt_one (by norm_num)]
      exact h1]
  ring

lemma hue_wrap_eq_sub {h : ℝ} (h0 : 360 ≤ h) (h1 : h < 720) : hue_wrap h = h - 360 := by
  unfold hue_wrap
  rw [show ⌊h / 360⌋ = 1 from by
    rw [Int.floor_eq_iff]
    constructor
    · rw [Int.cast_one, le_div_iff₀ (by norm_num)]
      linarith
    · rw [Int.cast_one, div_lt_iff₀ (by norm_num)]
      linarith]
  ring

lemma hue_delta_350_10 : hue_shortest_delta 350 10 = 20 := by
  have h340 : ⌊((10 : ℝ) - 350) / 360⌋ = -1 := by
    rw [Int.floor_eq_iff]
    norm_num
  simp only [hue_shortest_delta, hue_wrap]
  rw [h340]
  norm_num

/-- C5 (spec-modelled): interpolating from hue 350° to hue 10° stays on
the short arc through the 0/360 wrap: with 2 steps the sequence is
exactly [350°, 0°, 10°], and for any positive step count every produced
hue lies in [350°, 360°) ∪ [0°, 10°] — the path crosses 360°/0° and
never touches 180°. -/
theorem C5_hue_shortest_arc :
    hue_interp_seq 350 10 2 = [350, 0, 10] ∧
      ∀ n : ℕ, 1 ≤ n → ∀ hv ∈ hue_interp_seq 350 10 n,
        (350 ≤ hv ∧ hv < 360 ∨ 0 ≤ hv ∧ hv ≤ 10) ∧ hv ≠ 180 := by
  constructor
  · unfold hue_interp_seq
    rw [hue_delta_350_10, show List.range (2 + 1) = [0, 1, 2] from rfl]
    simp only [List.map_cons, List.map_nil]
    rw [show (350 : ℝ) + 20 * ((0 : ℕ) / (2 : ℕ) : ℝ) = 350 by norm_num,
      show (350 : ℝ) + 20 * ((1 : ℕ) / (2 : ℕ) : ℝ) = 360 by norm_num,
      show (350 : ℝ) + 20 * ((2 : ℕ) / (2 : ℕ) : ℝ) = 370 by norm_num]
    rw [hue_wrap_eq_self (by norm_num) (by norm_num),
      hue_wrap_eq_sub (by norm_num) (by norm_num),
      hue_wrap_eq_sub (by norm_num) (by norm_num)]
    norm_num
  · intro n hn hv hmem
    unfold hue_interp_seq at hmem
    rw [hue_delta_350_10] at hmem
    obtain ⟨i, hi, rfl⟩ := List.mem_map.mp hmem
    have hi' : i ≤ n := Nat.lt_succ_iff.mp (List.mem_range.mp hi)
    have hnpos : (0 : ℝ) < n := by
      have : (1 : ℝ) ≤ n := by exact_mod_cast hn
      linarith
    have hf0 : 0 ≤ (i : ℝ) / n := by positivity
    have hf1 : (i : ℝ) / n ≤ 1 := by
      rw [div_le_one hnpos]
      exact_mod_cast hi'
    have hw0 : 350 ≤ 350 + 20 * ((i : ℝ) / n) := by linarith
    have hw1 : 350 + 20 * ((i : ℝ) / n) ≤ 370 := by linarith
    by_cases hcase : 350 + 20 * ((i : ℝ) / n) < 360
    · rw [hue_wrap_eq_self (by linarith) hcase]
      exact ⟨Or.inl ⟨hw0, hcase⟩, by linarith⟩
    · push_neg at hcase
      rw [hue_wrap_eq_sub hcase (by linarith)]
      exact ⟨Or.inr ⟨by linarith, by linarith⟩, by linarith⟩

/-- Witness for C5_hue_shortest_arc: the first produced hue, 350°, lies
on the short-arc range and differs from 180°. -/
theorem C5_hue_shortest_arc_witness :
    ((350 : ℝ) ≤ 350 ∧ (350 : ℝ) < 360 ∨ (0 : ℝ) ≤ 350 ∧ (350 : ℝ) ≤ 10) ∧
      (350 : ℝ) ≠ 180 :=
  C5_hue_shortest_arc.2 2 (by norm_num) 350
    (by rw [C5_hue_shortest_arc.1]; exact List.mem_cons_self 350 [0, 10])

/-- C3 (status code_bug): the code classifies the known amber color
(255,191,0) as outside the amber zone — its y-chromaticity (about 0.462)
violates the `is_reddish_enough` bound 0.395, so `is_in_amber_zone`
returns False although the file's own `test_amber_detection` expects
True; pure green (0,255,0) is also rejected (y-chromaticity 0.6). -/
theorem C3_amber_zone_eval :
    picoAmber1.is_in_amber_zone 255 191 0 = False ∧
      picoAmber1.is_in_amber_zone 0 255 0 = False := by
  constructor
  · refine eq_false fun h => ?_
    obtain ⟨h1, -⟩ := h
    exact absurd h1 (not_le.mpr picoAmber1.amber_y_chromaticity_big)
  · refine eq_false fun h => ?_
    obtain ⟨h1, -⟩ := h
    have hsum : picoAmber1.sum_xyz 0 255 0 = 1.1919203 := by
      unfold picoAmber1.sum_xyz picoAmber1.x_of picoAmber1.y_of picoAmber1.z_of
      rw [picoAmber1.srgb_to_linear_zero, picoAmber1.srgb_to_linear_255]
      ring
    have hy : picoAmber1.y_of 0 255 0 = 0.7151522 := by
      unfold picoAmber1.y_of
      rw [picoAmber1.srgb_to_linear_zero, picoAmber1.srgb_to_linear_255]
      ring
    rw [show picoAmber1.rgb_to_xy 0 255 0 =
        (picoAmber1.x_of 0 255 0 / picoAmber1.sum_xyz 0 255 0,
          picoAmber1.y_of 0 255 0 / picoAmber1.sum_xyz 0 255 0) from
      if_neg (by rw [hsum]; norm_num)] at h1
    rw [show (picoAmber1.x_of 0 255 0 / picoAmber1.sum_xyz 0 255 0,
        picoAmber1.y_of 0 255 0 / picoAmber1.sum_xyz 0 255 0).2 =
        picoAmber1.y_of 0 255 0 / picoAmber1.sum_xyz 0 255 0 from rfl, hsum, hy] at h1
    norm_num at h1

/-- C8 (amended): with saturation 0 both conversions are independent of
hue, but only picoColorModels.py scales to 8 bits: it returns the gray
triple `(int(v*255),)*3`, while picoAmber1.py returns the raw unscaled
floats `(v, v, v)`. -/
theorem C8_sat_zero_gray (h v : ℝ) :
    picoColorModels.hsv_to_rgb h 0 v = (pyint (v * 255), pyint (v * 255), pyint (v * 255)) ∧
      picoAmber1.hsv_to_rgb h 0 v = (v, v, v) := by
  constructor
  · simp [picoColorModels.hsv_to_rgb]
  · simp [picoAmber1.hsv_to_rgb]

/-- C8 counterexample: at s = 0, v = 1 the picoAmber1 conversion returns
(1.0, 1.0, 1.0) rather than the claimed `(int(1*255),)*3 = (255,255,255)`. -/
theorem C8_amber_gray_cex : picoAmber1.hsv_to_rgb 0 0 1 ≠ ((255 : ℝ), 255, 255) := by
  have hv : picoAmber1.hsv_to_rgb 0 0 1 = (1, 1, 1) := by simp [picoAmber1.hsv_to_rgb]
  rw [hv]
  intro h
  rw [Prod.mk.injEq] at h
  exact absurd h.1 (by norm_num)

/-- C9: `rgb_to_xy` handles zero chromaticity sums locally: whenever the
computed X+Y+Z sum is zero — in particular at pure black, where the gamma
decode sends every channel to exactly 0 — it returns the sentinel (0,0),
and on every other input it returns (X/(X+Y+Z), Y/(X+Y+Z)). -/
theorem C9_black_chromaticity :
    picoAmber1.rgb_to_xy 0 0 0 = (0, 0) ∧
      (∀ r g b : ℝ, picoAmber1.sum_xyz r g b = 0 → picoAmber1.rgb_to_xy r g b = (0, 0)) ∧
        (∀ r g b : ℝ, picoAmber1.sum_xyz r g b ≠ 0 →
          picoAmber1.rgb_to_xy r g b =
            (picoAmber1.x_of r g b / picoAmber1.sum_xyz r g b,
              picoAmber1.y_of r g b / picoAmber1.sum_xyz r g b)) := by
  refine ⟨?_, fun r g b hs => ?_, fun r g b hs => ?_⟩
  · have hs : picoAmber1.sum_xyz 0 0 0 = 0 := by
      unfold picoAmber1.sum_xyz picoAmber1.x_of picoAmber1.y_of picoAmber1.z_of
      rw [picoAmber1.srgb_to_linear_zero]
      ring
    unfold picoAmber1.rgb_to_xy
    rw [if_pos hs]
  · unfold picoAmber1.rgb_to_xy
    rw [if_pos hs]
  · unfold picoAmber1.rgb_to_xy
    rw [if_neg hs]

/-- Witness for C9_black_chromaticity: pure red has a nonzero sum, and
the chromaticity is the normalized pair. -/
theorem C9_black_chromaticity_witness :
    picoAmber1.sum_xyz 255 0 0 ≠ 0 ∧
      picoAmber1.rgb_to_xy 255 0 0 =
        (picoAmber1.x_of 255 0 0 / picoAmber1.sum_xyz 255 0 0,
          picoAmber1.y_of 255 0 0 / picoAmber1.sum_xyz 255 0 0) := by
  have hne : picoAmber1.sum_xyz 255 0 0 ≠ 0 := by
    unfold picoAmber1.sum_xyz picoAmber1.x_of picoAmber1.y_of picoAmber1.z_of
    rw [picoAmber1.srgb_to_linear_zero, picoAmber1.srgb_to_linear_255]
    norm_num
  exact ⟨hne, C9_black_chromaticity.2.2 255 0 0 hne⟩

/-- C10: for nonnegative channel values the chromaticity returned by
`rgb_to_xy` lies in the CIE simplex: both coordinates are nonnegative and
their sum is at most 1 (every matrix coefficient is nonnegative and the
gamma decode preserves nonnegativity). -/
theorem C10_chromaticity_simplex (r g b : ℝ) (hr : 0 ≤ r) (hg : 0 ≤ g) (hb : 0 ≤ b) :
    0 ≤ (picoAmber1.rgb_to_xy r g b).1 ∧ 0 ≤ (picoAmber1.rgb_to_xy r g b).2 ∧
      (picoAmber1.rgb_to_xy r g b).1 + (picoAmber1.rgb_to_xy r g b).2 ≤ 1 := by
  have h1 := picoAmber1.srgb_to_linear_nonneg hr
  have h2 := picoAmber1.srgb_to_linear_nonneg hg
  have h3 := picoAmber1.srgb_to_linear_nonneg hb
  have hx : 0 ≤ picoAmber1.x_of r g b := by unfold picoAmber1.x_of; linarith
  have hy : 0 ≤ picoAmber1.y_of r g b := by unfold picoAmber1.y_of; linarith
  have hz : 0 ≤ picoAmber1.z_of r g b := by unfold picoAmber1.z_of; linarith
  by_cases hs : picoAmber1.sum_xyz r g b = 0
  · unfold picoAmber1.rgb_to_xy
    rw [if_pos hs]
    norm_num
  · have hspos : 0 < picoAmber1.sum_xyz r g b :=
      lt_of_le_of_ne (by unfold picoAmber1.sum_xyz; linarith) (Ne.symm hs)
    unfold picoAmber1.rgb_to_xy
    rw [if_neg hs]
    refine ⟨div_nonneg hx hspos.le, div_nonneg hy hspos.le, ?_⟩
    show picoAmber1.x_of r g b / picoAmber1.sum_xyz r g b +
        picoAmber1.y_of r g b / picoAmber1.sum_xyz r g b ≤ 1
    rw [div_add_div_same, div_le_one hspos]
    unfold picoAmber1.sum_xyz
    linarith

/-- Witness for C10_chromaticity_simplex at pure black. -/
theorem C10_chromaticity_simplex_witness :
    0 ≤ (picoAmber1.rgb_to_xy 0 0 0).1 ∧ 0 ≤ (picoAmber1.rgb_to_xy 0 0 0).2 ∧
      (picoAmber1.rgb_to_xy 0 0 0).1 + (picoAmber1.rgb_to_xy 0 0 0).2 ≤ 1 :=
  C10_chromaticity_simplex 0 0 0 (le_refl 0) (le_refl 0) (le_refl 0)

/-- C1 (status code_bug): evaluating the round trip at pure black.
`rgb_to_oklab` companding uses the CIELAB linear segment below 0.0031308,
which `oklab_to_rgb` inverts with a pure cube, so (0,0,0) comes back as
(8,8,8) — an error of 8 per channel, far outside the claimed ±1. -/
theorem C1_oklab_roundtrip_black :
    oklab2.oklab_to_rgb (oklab2.rgb_to_oklab 0 0 0).1
      (oklab2.rgb_to_oklab 0 0 0).2.1 (oklab2.rgb_to_oklab 0 0 0).2.2 = (8, 8, 8) := by
  rw [oklab2.rgb_to_oklab_black]
  norm_num [oklab2.oklab_to_rgb, oklab2.linear_from_prime, oklab2.srgb_from_linear,
    pyint, min_def, max_def, Prod.mk.injEq, Int.floor_eq_iff]

/-- C6 counterexample: at x = -1 the cube-root step of `rgb_to_oklab`
returns 7.787*(-1) + 16/116 ≈ -7.649, not the signed cube root -1, and
the cube step of `oklab_to_rgb` returns the substituted constant 0, not
(-1)^3. -/
theorem C6_negative_cex :
    oklab2.prime_from_linear (-1) ≠ -1 ∧ oklab.linear_from_prime (-1) ≠ (-1 : ℝ) ^ 3 := by
  constructor
  · rw [show oklab2.prime_from_linear (-1) = (-1) * 7.787 + 16 / 116 from
      if_neg (by norm_num)]
    norm_num
  · rw [show oklab.linear_from_prime (-1) = 0 from if_neg (by norm_num)]
    norm_num

/-- C6 (amended): for every negative input the cube-root step applies the
linear companding segment 7.787*x + 16/116 (a real value, never NaN, but
not the signed cube root), and the cube step clamps to the constant 0
instead of cubing. -/
theorem C6_negative_branches (x : ℝ) (hx : x < 0) :
    oklab2.prime_from_linear x = x * 7.787 + 16 / 116 ∧ oklab.linear_from_prime x = 0 := by
  refine ⟨if_neg (not_lt.mpr (hx.le.trans (by norm_num))), if_neg (not_lt.mpr hx.le)⟩

/-- Witness for C6_negative_branches at x = -1. -/
theorem C6_negative_branches_witness :
    (-1 : ℝ) < 0 ∧
      (oklab2.prime_from_linear (-1) = (-1) * 7.787 + 16 / 116 ∧
        oklab.linear_from_prime (-1) = 0) :=
  ⟨by norm_num, C6_negative_branches (-1) (by norm_num)⟩

end
